import Mathlib

/-!
Shallow embedding of the Flowther call-graph view-state engine
(`src/unnamed/part_000`, the current `extension.js`; `src/extension.js` is an
older snapshot of the same file and is noted where the two differ).

Modelling conventions, used consistently below:
- JavaScript numbers are modelled by `JsNum` (`NaN`, `Infinity`, `-Infinity`,
  or a finite integer; the analyzer schema only produces integer lines and
  columns).  The result of the defensive coercion `Number(x || 0)` can never
  be `NaN` (because `NaN` is falsy), so normalized numeric fields live in the
  `NaN`-free type `ExtNum`.
- JS string falsiness: only the empty string is falsy.  Absent (`undefined` or
  `null`) JSON fields are `Option.none`.
- `path.isAbsolute` and `path.join` are modelled for POSIX paths, with `join`
  as slash concatenation (no `..` normalization, which the engine never needs).
- A JS `Set` built from a list is modelled by the list itself with
  first-occurrence deduplication (`jsSetDedup`); `Set.has` is `List.contains`.
- `Array.prototype.sort(comparator)` is modelled by the stable
  `List.insertionSort` on the reflexive relation `comparator a b ≠ .gt`
  (ES2019 requires the sort to be stable, and ECMA SortCompare maps a `NaN`
  comparator result to `+0`); the comparators below are the sign of the
  corresponding JS comparator.
- `String.prototype.localeCompare` is modelled as code-point comparison
  (`compare` on `String`), the locale-independent core of its behavior.
-/

namespace Flowther

/-- A JavaScript number as relevant to the engine: the analyzer schema carries
integer lines and columns, so finite values are integers. -/
inductive JsNum where
  | nan
  | inf
  | negInf
  | fin (x : Int)
deriving DecidableEq, Repr

/-- A JavaScript number that is known not to be `NaN`; the codomain of the
defensive coercion `Number(x || 0)`. -/
inductive ExtNum where
  | negInf
  | fin (x : Int)
  | inf
deriving DecidableEq, Repr

/-- Models `Number(x || 0)` for `x` an absent-or-numeric JSON field: `x` is
replaced by `0` exactly when it is falsy (`undefined`, `null`, `NaN`, or `0`);
all other numbers, including the infinities, pass through unchanged. -/
def jsNumOrZero : Option JsNum → ExtNum
  | none => .fin 0
  | some .nan => .fin 0
  | some .inf => .inf
  | some .negInf => .negInf
  | some (.fin x) => .fin x

/-- Sign of the JS subtraction `a - b` on `NaN`-free numbers, as consumed by
`Array.prototype.sort` (a comparator result of `NaN`, which arises only for
`∞ - ∞`, is treated as `+0` by ECMA SortCompare, hence `.eq`). -/
def extNumCompare : ExtNum → ExtNum → Ordering
  | .negInf, .negInf => .eq
  | .negInf, _ => .lt
  | _, .negInf => .gt
  | .inf, .inf => .eq
  | .inf, _ => .gt
  | _, .inf => .lt
  | .fin x, .fin y => compare x y

/-- JS stringification of a `NaN`-free number, as used in template literals. -/
def extNumToString : ExtNum → String
  | .fin x => toString x
  | .inf => "Infinity"
  | .negInf => "-Infinity"

/-- Models `path.isAbsolute` for POSIX paths: the path starts with a slash. -/
def pathIsAbsolute (p : String) : Bool :=
  match p.data with
  | [] => false
  | c :: _ => c == '/'

/-- Models `path.join(a, b)` for POSIX paths (no `..` normalization). -/
def pathJoin (a b : String) : String := a ++ "/" ++ b

/-- Whitespace as trimmed by `String.prototype.trim` (the ASCII core). -/
def isWsChar (c : Char) : Bool := c == ' ' || c == '\t' || c == '\n' || c == '\r'

/-- Models `s.trim()`: strip leading and trailing whitespace. -/
def jsTrim (s : String) : String :=
  ⟨((s.data.dropWhile isWsChar).reverse.dropWhile isWsChar).reverse⟩

/-- Models `s.startsWith(pre)` on code points. -/
def jsStartsWith (s pre : String) : Bool := pre.data.isPrefixOf s.data

/-- Raw `location` object from the analyzer JSON (schema section 6). -/
structure RawLocation where
  file : Option String
  line : Option JsNum
  character : Option JsNum
deriving DecidableEq, Repr

/-- Raw `CallNode` from the analyzer JSON; `Option` marks the fields the
engine defends with `|| []` or `!!`. -/
inductive RawCall where
  | mk (label contract kindLabel tooltip : String) (cycle : Option Bool)
      (location : Option RawLocation) (calls : Option (List RawCall))

/-- Raw entrypoint from the analyzer JSON. -/
structure RawEntrypoint where
  flowId : String
  label : String
  contract : String
  tooltip : String
  inherited : Option Bool
  inheritedFrom : Option String
  location : Option RawLocation
  calls : Option (List RawCall)

/-- Raw file entry from the analyzer JSON. -/
structure RawFile where
  path : String
  entrypoints : Option (List RawEntrypoint)

/-- Raw analysis result from the analyzer JSON (the `variables` projection is
consumed only by the independent `VariablesProvider` and is not needed by any
claim, so it is not carried here). -/
structure RawAnalysis where
  ok : Bool
  error : Option String
  files : Option (List RawFile)

/-- Normalized location (output of `normalizeLocation`): absolute file, and
`NaN`-free line and character. -/
structure Location where
  file : String
  line : ExtNum
  character : ExtNum
deriving DecidableEq, Repr

/-- Normalized call node (output of `normalizeCall`). -/
inductive CallNode where
  | mk (order : Option Nat) (label contract kindLabel tooltip : String) (cycle : Bool)
      (location : Option Location) (calls : List CallNode)

/-- Label projection of a normalized call node. -/
def CallNode.label : CallNode → String
  | .mk _ l _ _ _ _ _ _ => l

/-- Cycle-flag projection of a normalized call node. -/
def CallNode.cycle : CallNode → Bool
  | .mk _ _ _ _ _ c _ _ => c

/-- Location projection of a normalized call node. -/
def CallNode.location : CallNode → Option Location
  | .mk _ _ _ _ _ _ loc _ => loc

/-- Children projection of a normalized call node. -/
def CallNode.calls : CallNode → List CallNode
  | .mk _ _ _ _ _ _ _ cs => cs

/-- Normalized entrypoint node (output of `normalizeEntrypoint`). -/
structure EpNode where
  flowId : String
  label : String
  contract : String
  tooltip : String
  inherited : Bool
  inheritedFrom : Option String
  location : Option Location
  calls : List CallNode

/-- File node produced by `WorkflowsProvider._rebuildFiles`. -/
structure FileNode where
  fileRel : String
  fileAbs : String
  entrypoints : List EpNode

/-- Transcription of `normalizeLocation(location, workspaceRoot)`: `null` when
the location is absent or its `file` field is falsy; otherwise the file is
resolved against the workspace root when relative, and `line`/`character` go
through `Number(x || 0)`. -/
def normalizeLocation (location : Option RawLocation) (workspaceRoot : String) :
    Option Location :=
  match location with
  | none => none
  | some loc =>
    match loc.file with
    | none => none
    | some f =>
      if f = "" then none
      else
        some { file := if pathIsAbsolute f then f else pathJoin workspaceRoot f
               line := jsNumOrZero loc.line
               character := jsNumOrZero loc.character }

mutual

/-- Transcription of `normalizeCall(call, workspaceRoot, order)`; the `order`
field is `Number(order || 0) || undefined`, children are rebuilt recursively
with 1-based sibling indices, and the defensive defaults `!!call.cycle` and
`call.calls || []` are applied. -/
def normalizeCall (call : RawCall) (workspaceRoot : String) (order : Nat) : CallNode :=
  match call with
  | .mk label contract kindLabel tooltip cycle location calls =>
    .mk (if order = 0 then none else some order) label contract kindLabel tooltip
      (cycle.getD false) (normalizeLocation location workspaceRoot)
      (match calls with
       | none => []
       | some cs => normalizeCallList cs workspaceRoot 1)

/-- The `map` over a raw call list in `normalizeCall` and
`normalizeEntrypoint`, carrying the 1-based sibling index. -/
def normalizeCallList (calls : List RawCall) (workspaceRoot : String) (idx : Nat) :
    List CallNode :=
  match calls with
  | [] => []
  | c :: rest => normalizeCall c workspaceRoot idx :: normalizeCallList rest workspaceRoot (idx + 1)

end

/-- Transcription of `normalizeEntrypoint(ep, workspaceRoot)`. -/
def normalizeEntrypoint (ep : RawEntrypoint) (workspaceRoot : String) : EpNode :=
  { flowId := ep.flowId
    label := ep.label
    contract := ep.contract
    tooltip := ep.tooltip
    inherited := ep.inherited.getD false
    inheritedFrom :=
      match ep.inheritedFrom with
      | none => none
      | some s => if s = "" then none else some s
    location := normalizeLocation ep.location workspaceRoot
    calls :=
      match ep.calls with
      | none => []
      | some cs => normalizeCallList cs workspaceRoot 1 }

/-- Worker for `jsSetDedup`, carrying the set of elements already seen. -/
def jsSetDedupAux (seen : List String) : List String → List String
  | [] => []
  | a :: rest =>
    if seen.contains a then jsSetDedupAux seen rest
    else a :: jsSetDedupAux (a :: seen) rest

/-- Models `Array.from(new Set(list))`: deduplication keeping the first
occurrence of each element, in order. -/
def jsSetDedup (l : List String) : List String := jsSetDedupAux [] l

/-- Line sort key of an entrypoint:
`Number(a.location?.line ?? Number.POSITIVE_INFINITY)`. -/
def epLineNumber (ep : EpNode) : ExtNum :=
  match ep.location with
  | some loc => loc.line
  | none => .inf

/-- Sign of the entrypoint comparator in `_rebuildFiles` of
`src/unnamed/part_000` (lines 556-569): inherited flag (`false` first), then
source line, then label.  The older snapshot `src/extension.js` omits the
inherited key. -/
def epCompare (a b : EpNode) : Ordering :=
  let ia : Nat := if a.inherited then 1 else 0
  let ib : Nat := if b.inherited then 1 else 0
  if ia ≠ ib then compare ia ib
  else
    let la := epLineNumber a
    let lb := epLineNumber b
    if la ≠ lb then extNumCompare la lb
    else compare a.label b.label

/-- Sign of the file comparator in `_rebuildFiles`:
`a.fileRel.localeCompare(b.fileRel)`. -/
def fileCompare (a b : FileNode) : Ordering :=
  compare a.fileRel b.fileRel

/-- The non-strict relation induced by a JS comparator: `cmp a b ≤ 0`. -/
def cmpLe (cmp : α → α → Ordering) (a b : α) : Prop := cmp a b ≠ Ordering.gt

instance (cmp : α → α → Ordering) : DecidableRel (cmpLe cmp) := fun a b =>
  inferInstanceAs (Decidable (cmp a b ≠ Ordering.gt))

/-- Model of `Array.prototype.sort(comparator)`: the stable sort on the
relation `comparator a b ≤ 0`. -/
def jsSort (cmp : α → α → Ordering) (l : List α) : List α :=
  l.insertionSort (cmpLe cmp)

instance (cmp : α → α → Ordering) [Batteries.OrientedCmp cmp] : IsTotal α (cmpLe cmp) where
  total a b := by
    by_cases h : cmp a b = Ordering.gt
    · have : cmp b a = Ordering.lt := Batteries.OrientedCmp.cmp_eq_gt.mp h
      exact Or.inr (by simp [cmpLe, this])
    · exact Or.inl h

instance (cmp : α → α → Ordering) [Batteries.TransCmp cmp] : IsTrans α (cmpLe cmp) where
  trans _ _ _ := Batteries.TransCmp.le_trans

instance : Ord ExtNum := ⟨extNumCompare⟩

instance : Batteries.TransCmp extNumCompare where
  symm x y := by
    cases x <;> cases y <;> simp only [extNumCompare] <;> (try rfl) <;>
      exact Batteries.OrientedCmp.symm (α := Int) _ _
  le_trans {x y z} h1 h2 := by
    cases x <;> cases y <;> cases z <;> simp_all only [extNumCompare] <;>
      (try simp_all) <;>
      exact Batteries.TransCmp.le_trans (α := Int) h1 h2

instance : Batteries.TransOrd ExtNum :=
  inferInstanceAs (Batteries.TransCmp extNumCompare)

/-- Truthiness of a JS value that is either a string or null/undefined. -/
def strTruthy : Option String → Bool
  | none => false
  | some s => s != ""

/-- The body of the first `map` in `_rebuildFiles` (lines 534-541): one file
node with relative and resolved absolute paths, and the normalized survivors
of the hidden-flow filter. -/
def fileNodeOfRaw (workspaceRoot : String) (hiddenFlows : List String)
    (file : RawFile) : FileNode :=
  { fileRel := file.path
    fileAbs := if pathIsAbsolute file.path then file.path else pathJoin workspaceRoot file.path
    entrypoints := ((file.entrypoints.getD []).filter
        (fun ep => !hiddenFlows.contains ep.flowId)).map
      (fun ep => normalizeEntrypoint ep workspaceRoot) }

/-- Stages 1-3 of `_rebuildFiles` (lines 532-542): drop hidden files, build
file nodes with hidden flows filtered out, drop files left without
entrypoints. -/
def baseFiles (analysis : RawAnalysis) (workspaceRoot : String)
    (hiddenFlows hiddenFiles : List String) : List FileNode :=
  (((analysis.files.getD []).filter (fun file => !hiddenFiles.contains file.path)).map
      (fileNodeOfRaw workspaceRoot hiddenFlows)).filter
    (fun fileNode => !fileNode.entrypoints.isEmpty)

/-- The focus stage of `_rebuildFiles` (lines 544-552): restrict every file to
the entrypoints whose `flowId` equals the focused id and drop files left
empty. -/
def applyFocus (focusId : String) (files : List FileNode) : List FileNode :=
  (files.map (fun file =>
      { file with entrypoints := file.entrypoints.filter (fun ep => ep.flowId == focusId) })).filter
    (fun fileNode => !fileNode.entrypoints.isEmpty)

/-- Stages 1-4 of `_rebuildFiles`: the visible file nodes before sorting; a
falsy (absent or empty) `focusFlowId` skips the focus stage, mirroring
`if (this._focusFlowId)`. -/
def visibleFiles (analysis : RawAnalysis) (workspaceRoot : String)
    (hiddenFlows hiddenFiles : List String) (focusFlowId : Option String) :
    List FileNode :=
  let files := baseFiles analysis workspaceRoot hiddenFlows hiddenFiles
  match focusFlowId with
  | some focusId => if focusId = "" then files else applyFocus focusId files
  | none => files

/-- Transcription of `WorkflowsProvider._rebuildFiles` (lines 524-571):
`analysis` and `workspaceRoot` are the nullable provider state, the hidden
sets are the persisted lists.  The visible files are sorted by file path and,
per file, by the entrypoint comparator. -/
def rebuildFiles (analysis : Option RawAnalysis) (workspaceRoot : Option String)
    (hiddenFlows hiddenFiles : List String) (focusFlowId : Option String) :
    List FileNode :=
  match analysis, workspaceRoot with
  | some a, some root =>
    if root = "" then []
    else
      (jsSort fileCompare (visibleFiles a root hiddenFlows hiddenFiles focusFlowId)).map
        (fun f => { f with entrypoints := jsSort epCompare f.entrypoints })
  | _, _ => []

/-- Transcription of the persisted-state update in `hideFlow` (line 430):
`Array.from(new Set([...current, node.flowId]))`. -/
def hideFlowUpdate (current : List String) (flowId : String) : List String :=
  jsSetDedup (current ++ [flowId])

/-- Transcription of the persisted-state update in `unhideAllFlows`
(line 441): the hidden-flow list becomes empty, regardless of the current
state. -/
def unhideAllFlowsUpdate (current : List String) : List String := []

/-- A value stored in the persisted hidden-flow list: the engine writes
strings, but `unhideFlowsInFile` defends against non-string entries with a
`typeof` check, so the model carries an opaque stand-in for them. -/
inductive PersistedVal where
  | str (s : String)
  | nonString (tag : Nat)
deriving DecidableEq, Repr

/-- Transcription of the persisted-state update in `unhideFlowsInFile`
(lines 454-457): keep each entry that is not a string or does not start with
the prefix `fileRel + "::"`. -/
def unhideFlowsInFileUpdate (fileRel : String) (current : List PersistedVal) :
    List PersistedVal :=
  let pre := fileRel ++ "::"
  current.filter (fun v =>
    match v with
    | .str s => !(jsStartsWith s pre)
    | .nonString _ => true)

/-- A node handed to `getTreeItem`, commands, or `_getReviewId`. -/
inductive WFNode where
  | message (text : String)
  | file (f : FileNode)
  | entrypoint (ep : EpNode)
  | call (c : CallNode)

/-- Transcription of `WorkflowsProvider._getReviewId` (lines 515-522). -/
def getReviewId : WFNode → Option String
  | .entrypoint ep => if ep.flowId = "" then none else some ep.flowId
  | .call c =>
    match c.location with
    | some loc =>
      if loc.file = "" then none
      else some (loc.file ++ ":" ++ extNumToString loc.line ++ ":" ++ c.label)
    | none => none
  | _ => none

/-- Transcription of the `allReviewed` computation in `getTreeItem` for file
nodes (line 183): nonempty entrypoints, each with a truthy `flowId` contained
in the persisted reviewed set. -/
def fileAllReviewed (reviewed : List String) (f : FileNode) : Bool :=
  !f.entrypoints.isEmpty &&
    f.entrypoints.all (fun ep => ep.flowId != "" && reviewed.contains ep.flowId)

/-- A runnable command descriptor `{cmd, args}`. -/
structure Runner where
  cmd : String
  args : List String
deriving DecidableEq, Repr

/-- The environment consulted by `resolvePythonPathForSlither`: the candidate
sources (in the order the source pushes them) and the outcomes of the
subprocess probes, which the embedding treats as given facts about the
machine. -/
structure ResolverEnv where
  slitherPython : Option String
  pythonPathSetting : String
  defaultInterpreterPath : String
  pythonFromExt : Option String
  envCandidates : List String
  canImportSlither : String → Bool
  uvxOk : Bool
  pipxOk : Bool

/-- The `candidates` array of `resolvePythonPathForSlither` (lines 881-905):
each source contributes when truthy, in priority order, ending with the bare
names. -/
def candidateList (e : ResolverEnv) : List String :=
  (match e.slitherPython with
   | some s => if s = "" then [] else [s]
   | none => []) ++
  (if e.pythonPathSetting = "" then [] else [e.pythonPathSetting]) ++
  (if e.defaultInterpreterPath = "" then [] else [e.defaultInterpreterPath]) ++
  (match e.pythonFromExt with
   | some s => if s = "" then [] else [s]
   | none => []) ++
  e.envCandidates ++ ["python3", "python"]

/-- Line 907: `Array.from(new Set(candidates.filter(Boolean)))`. -/
def uniqueCandidates (e : ResolverEnv) : List String :=
  jsSetDedup ((candidateList e).filter (fun s => s != ""))

/-- The probing for-loop of lines 909-914, instrumented with the list of
candidates actually probed, in order: it stops at the first success. -/
def probeLoop (probe : String → Bool) : List String → Option String × List String
  | [] => (none, [])
  | c :: rest =>
    if probe c then (some c, [c])
    else
      let r := probeLoop probe rest
      (r.1, c :: r.2)

/-- The result of the resolver together with its observable effects: which
candidates were probed and whether the uvx/pipx package-fetch fallbacks were
invoked. -/
structure ResolveOutcome where
  result : Runner
  probed : List String
  triedUvx : Bool
  triedPipx : Bool
deriving Repr

/-- Transcription of `resolvePythonPathForSlither` (lines 880-936): probe the
deduplicated candidates in order and return the first success with empty
extra args; on exhaustion try uvx then pipx; otherwise fall back to the
explicit setting, else the shebang-derived interpreter, else `python3`. -/
def resolvePythonPathForSlither (e : ResolverEnv) : ResolveOutcome :=
  match probeLoop e.canImportSlither (uniqueCandidates e) with
  | (some c, tr) =>
    { result := { cmd := c, args := [] }, probed := tr, triedUvx := false, triedPipx := false }
  | (none, tr) =>
    if e.uvxOk then
      { result := { cmd := "uvx", args := ["--from", "slither-analyzer", "python"] }
        probed := tr, triedUvx := true, triedPipx := false }
    else if e.pipxOk then
      { result := { cmd := "pipx", args := ["run", "--spec", "slither-analyzer", "python"] }
        probed := tr, triedUvx := true, triedPipx := true }
    else
      { result :=
          if e.pythonPathSetting ≠ "" then { cmd := e.pythonPathSetting, args := [] }
          else
            match e.slitherPython with
            | some s => if s ≠ "" then { cmd := s, args := [] } else { cmd := "python3", args := [] }
            | none => { cmd := "python3", args := [] }
        probed := tr, triedUvx := true, triedPipx := true }

/-- Transcription of the close handler of `runExtractor` (lines 1218-1232).
`JSON.parse(stdout)` is modelled by its outcome `parsed` (the handler treats
the parsed value as opaque); a promise resolution is `.ok`, a rejection is
`.error` carrying the message.  A child killed by a signal reports a `null`
exit code in JS; the claims concern numeric exit codes, so `code` is an
integer here. -/
def closeOutcome {α : Type} (parsed : Option α) (stderr : String) (code : Int) :
    Except String α :=
  match parsed with
  | some v => .ok v
  | none =>
    if code ≠ 0 then
      .error (if jsTrim stderr = "" then "Extractor exited with code " ++ toString code
              else jsTrim stderr)
    else
      .error ("Failed to parse extractor output as JSON. stderr: " ++ jsTrim stderr)

mutual

/-- Modelled from the spec: the analyzer adapter `python/extract_workflows.py`
is part of this repository but not under `src/`; per spec sections 3 and 9 it
emits `cycle=true` only as a recursion-terminator leaf, so every raw call tree
it produces satisfies this predicate: each node with a truthy cycle flag has
an empty `calls` list. -/
def rawCycleOk : RawCall → Bool
  | .mk _ _ _ _ cycle _ calls =>
    (!(cycle.getD false) || (match calls with
      | none => true
      | some cs => cs.isEmpty)) &&
    (match calls with
     | none => true
     | some cs => rawCycleOkList cs)

/-- Pointwise `rawCycleOk` over a list of raw calls. -/
def rawCycleOkList : List RawCall → Bool
  | [] => true
  | c :: rest => rawCycleOk c && rawCycleOkList rest

end

mutual

/-- Every node of a normalized call tree with `cycle = true` has no
children. -/
def normCycleOk : CallNode → Bool
  | .mk _ _ _ _ _ cycle _ calls => (!cycle || calls.isEmpty) && normCycleOkList calls

/-- Pointwise `normCycleOk` over a list of normalized calls. -/
def normCycleOkList : List CallNode → Bool
  | [] => true
  | c :: rest => normCycleOk c && normCycleOkList rest

end

/-- Restrict one file node to the entrypoints satisfying `p`. -/
def epUpdate (p : EpNode → Bool) (f : FileNode) : FileNode :=
  { f with entrypoints := f.entrypoints.filter p }

/-- One generic entrypoint-filtering stage: restrict every file to the
entrypoints satisfying `p` and drop files left empty.  The focus stage is
this for `flowId == focusId`; the specification device `removeFlow` is this
for the complement. -/
def epFilterStage (p : EpNode → Bool) (files : List FileNode) : List FileNode :=
  (files.map (epUpdate p)).filter (fun f => !f.entrypoints.isEmpty)

/-- Specification device for the hide-flow claim: remove from every file
exactly the entrypoints carrying the given `flowId` and drop files left
empty. -/
def removeFlow (flowId : String) : List FileNode → List FileNode :=
  epFilterStage (fun ep => !(ep.flowId == flowId))

/-- Sort the entrypoints of one file node: the final per-file step of
`_rebuildFiles`. -/
def epSortNode (f : FileNode) : FileNode :=
  { f with entrypoints := jsSort epCompare f.entrypoints }

/-- A raw entrypoint located in `F.sol`, used by the concrete examples. -/
def exampleEntrypoint (fid lbl : String) (line : Int) (inh : Bool) : RawEntrypoint :=
  { flowId := fid, label := lbl, contract := "C", tooltip := "",
    inherited := some inh, inheritedFrom := none,
    location := some { file := some "F.sol", line := some (.fin line), character := some (.fin 0) },
    calls := none }

/-- The sorting example of the spec: one raw file with entrypoints b(20),
a(10), z(1, inherited), in producer order. -/
def sortExampleFile : RawFile :=
  { path := "F.sol"
    entrypoints := some [exampleEntrypoint "F.sol::C.b" "b" 20 false,
      exampleEntrypoint "F.sol::C.a" "a" 10 false,
      exampleEntrypoint "F.sol::C.z" "z" 1 true] }

/-- The sorting example of the spec as a full analysis result. -/
def sortExampleAnalysis : RawAnalysis :=
  { ok := true, error := none, files := some [sortExampleFile] }

/-- An analysis-level failure payload (`ok:false`). -/
def failedAnalysis : RawAnalysis :=
  { ok := false, error := some "compilation failed", files := none }

/-- Resolver environment in which the fourth candidate probes successfully. -/
def probeExampleEnv : ResolverEnv :=
  { slitherPython := some "c1", pythonPathSetting := "c2", defaultInterpreterPath := "c3",
    pythonFromExt := some "c4", envCandidates := ["c5"],
    canImportSlither := fun s => s == "c4", uvxOk := true, pipxOk := true }

/-- Resolver environment in which every probe and both fallbacks fail but an
explicit interpreter override is set. -/
def fallbackExampleEnv : ResolverEnv :=
  { slitherPython := some "shebangpy", pythonPathSetting := "/opt/venv/bin/python",
    defaultInterpreterPath := "", pythonFromExt := none, envCandidates := [],
    canImportSlither := fun _ => false, uvxOk := false, pipxOk := false }

/-- A normalized entrypoint with a nonempty flow id, for the review-identity
example. -/
def exampleEpNode : EpNode :=
  { flowId := "F.sol::C.a", label := "a", contract := "C", tooltip := "",
    inherited := false, inheritedFrom := none, location := none, calls := [] }

/-- A normalized call node with a location, for the review-identity example. -/
def exampleCallNode : CallNode :=
  .mk (some 1) "transfer" "C" "Internal" "" false
    (some { file := "/ws/F.sol", line := .fin 5, character := .fin 2 }) []

/-- A cycle-terminator leaf as the producer emits it. -/
def exampleCycleLeaf : RawCall :=
  .mk "recurse" "C" "Internal" "" (some true) none (some [])

/-- Helper: a comparator pointwise equal to a transitive one is transitive. -/
theorem transCmp_of_funeq {cmp₁ cmp₂ : α → α → Ordering}
    (h : ∀ a b, cmp₁ a b = cmp₂ a b) (inst : Batteries.TransCmp cmp₂) :
    Batteries.TransCmp cmp₁ where
  symm x y := by rw [h, h]; exact inst.symm x y
  le_trans h1 h2 := by rw [h] at h1 h2 ⊢; exact inst.le_trans h1 h2

/-- The comparator `extNumCompare` returns `.eq` exactly on equal values. -/
theorem extNumCompare_eq_iff (x y : ExtNum) : extNumCompare x y = .eq ↔ x = y := by
  have hint : ∀ x y : Int, compare x y = Ordering.eq ↔ x = y := fun _ _ =>
    Batteries.BEqCmp.cmp_iff_eq
  cases x <;> cases y <;> simp [extNumCompare, hint]

/-- The comparator `compare` on `Nat` returns `.eq` exactly on equal values. -/
theorem natCompare_eq_iff (x y : Nat) : compare x y = .eq ↔ x = y :=
  Batteries.BEqCmp.cmp_iff_eq

/-- The entrypoint comparator is the lexicographic composition of three
compare-by-key comparators. -/
theorem epCompare_eq_lex (a b : EpNode) :
    epCompare a b =
      compareLex (compareOn fun e : EpNode => if e.inherited then (1 : Nat) else 0)
        (compareLex (compareOn epLineNumber) (compareOn EpNode.label)) a b := by
  have hN : (compare : ExtNum → ExtNum → Ordering) = extNumCompare := rfl
  simp only [epCompare, compareLex, compareOn, hN]
  by_cases h1 : (if a.inherited then (1 : Nat) else 0) = (if b.inherited then (1 : Nat) else 0)
  · rw [if_neg (not_not_intro h1)]
    have e1 : compare (if a.inherited then (1 : Nat) else 0)
        (if b.inherited then (1 : Nat) else 0) = .eq := (natCompare_eq_iff _ _).mpr h1
    rw [e1]
    by_cases h2 : epLineNumber a = epLineNumber b
    · rw [if_neg (not_not_intro h2)]
      have e2 : extNumCompare (epLineNumber a) (epLineNumber b) = .eq :=
        (extNumCompare_eq_iff _ _).mpr h2
      rw [e2]
      rfl
    · rw [if_pos h2]
      rcases hc : extNumCompare (epLineNumber a) (epLineNumber b) with _ | _ | _
      · rfl
      · exact absurd ((extNumCompare_eq_iff _ _).mp hc) h2
      · rfl
  · rw [if_pos h1]
    rcases hc : compare (if a.inherited then (1 : Nat) else 0)
        (if b.inherited then (1 : Nat) else 0) with _ | _ | _
    · rfl
    · exact absurd ((natCompare_eq_iff _ _).mp hc) h1
    · rfl

/-- Inserting an element that survives a filter commutes with filtering, on a
sorted list. -/
theorem filter_orderedInsert (r : α → α → Prop) [DecidableRel r] [IsTrans α r]
    (p : α → Bool) (a : α) :
    ∀ l : List α, List.Sorted r l → p a = true →
      (l.orderedInsert r a).filter p = (l.filter p).orderedInsert r a
  | [], _, ha => by simp [ha]
  | b :: t, hs, ha => by
    have hb : ∀ x ∈ t, r b x := List.rel_of_sorted_cons hs
    have ht : List.Sorted r t := hs.of_cons
    by_cases hab : r a b
    · rw [List.orderedInsert_of_le r t hab]
      have hall : ∀ c ∈ (b :: t).filter p, r a c := by
        intro c hc
        rcases List.mem_cons.mp (List.mem_of_mem_filter hc) with h | h
        · exact h ▸ hab
        · exact IsTrans.trans a b c hab (hb c h)
      rw [List.filter_cons_of_pos ha]
      cases hf : (b :: t).filter p with
      | nil => rfl
      | cons c u =>
        have hac : r a c := hall c (hf ▸ List.mem_cons_self c u)
        exact (List.orderedInsert_of_le r u hac).symm
    · have hstep : (b :: t).orderedInsert r a = b :: t.orderedInsert r a := by
        simp [List.orderedInsert, hab]
      rw [hstep]
      by_cases hpb : p b = true
      · rw [List.filter_cons_of_pos hpb, List.filter_cons_of_pos hpb,
          filter_orderedInsert r p a t ht ha]
        simp [List.orderedInsert, hab]
      · rw [List.filter_cons_of_neg (by simpa using hpb),
          List.filter_cons_of_neg (by simpa using hpb)]
        exact filter_orderedInsert r p a t ht ha

/-- Inserting an element that a filter drops leaves the filtered list
unchanged. -/
theorem filter_orderedInsert_of_neg (r : α → α → Prop) [DecidableRel r]
    (p : α → Bool) (a : α) (l : List α) (ha : p a = false) :
    (l.orderedInsert r a).filter p = l.filter p := by
  rw [List.orderedInsert_eq_take_drop, List.filter_append,
    List.filter_cons_of_neg (by simp [ha]), ← List.filter_append,
    List.takeWhile_append_dropWhile]

/-- The stable sort commutes with filtering. -/
theorem filter_insertionSort (r : α → α → Prop) [DecidableRel r] [IsTotal α r] [IsTrans α r]
    (p : α → Bool) :
    ∀ l : List α, (l.insertionSort r).filter p = (l.filter p).insertionSort r
  | [] => rfl
  | a :: t => by
    show ((t.insertionSort r).orderedInsert r a).filter p = ((a :: t).filter p).insertionSort r
    by_cases hp : p a = true
    · rw [filter_orderedInsert r p a _ (List.sorted_insertionSort r t) hp,
        filter_insertionSort r p t, List.filter_cons_of_pos hp]
      rfl
    · rw [filter_orderedInsert_of_neg r p a _ (by simpa using hp),
        filter_insertionSort r p t, List.filter_cons_of_neg (by simpa using hp)]

/-- The model of `Array.prototype.sort` commutes with filtering (stability). -/
theorem jsSort_filter (cmp : α → α → Ordering) [Batteries.TransCmp cmp] (p : α → Bool)
    (l : List α) : (jsSort cmp l).filter p = jsSort cmp (l.filter p) :=
  filter_insertionSort (cmpLe cmp) p l

/-- The model of `Array.prototype.sort` is a permutation of its input. -/
theorem jsSort_perm (cmp : α → α → Ordering) (l : List α) : List.Perm (jsSort cmp l) l :=
  List.perm_insertionSort _ l

/-- Membership is preserved by the model of `Array.prototype.sort`. -/
theorem mem_jsSort {cmp : α → α → Ordering} {l : List α} {a : α} :
    a ∈ jsSort cmp l ↔ a ∈ l :=
  (jsSort_perm cmp l).mem_iff

/-- The model of `Array.prototype.sort` sorts with respect to the comparator. -/
theorem jsSort_sorted (cmp : α → α → Ordering) [Batteries.TransCmp cmp] (l : List α) :
    List.Sorted (cmpLe cmp) (jsSort cmp l) :=
  List.sorted_insertionSort _ l

instance : Batteries.TransCmp epCompare :=
  transCmp_of_funeq epCompare_eq_lex inferInstance

instance : Batteries.TransCmp fileCompare :=
  transCmp_of_funeq (fun _ _ => rfl)
    (inferInstanceAs (Batteries.TransCmp (compareOn FileNode.fileRel)))

/-- The focus stage is the generic entrypoint-filtering stage at the
equality predicate. -/
theorem applyFocus_eq_stage (fid : String) (files : List FileNode) :
    applyFocus fid files = epFilterStage (fun ep => ep.flowId == fid) files := rfl

/-- Membership in the dedup worker: in the remaining input and not yet
seen. -/
theorem mem_jsSetDedupAux {x : String} :
    ∀ (seen l : List String), x ∈ jsSetDedupAux seen l ↔ x ∈ l ∧ x ∉ seen := by
  intro seen l
  induction l generalizing seen with
  | nil => simp [jsSetDedupAux]
  | cons a rest ih =>
    by_cases h : seen.contains a = true
    · have ha : a ∈ seen := by simpa [List.elem_iff] using h
      rw [jsSetDedupAux, if_pos h, ih]
      constructor
      · exact fun ⟨h1, h2⟩ => ⟨List.mem_cons_of_mem a h1, h2⟩
      · rintro ⟨h1, h2⟩
        rcases List.mem_cons.mp h1 with rfl | h1
        · exact absurd ha h2
        · exact ⟨h1, h2⟩
    · have ha : a ∉ seen := by simpa [List.elem_iff] using h
      rw [jsSetDedupAux, if_neg h]
      rw [List.mem_cons, ih]
      constructor
      · rintro (rfl | ⟨h1, h2⟩)
        · exact ⟨List.mem_cons_self _ _, ha⟩
        · refine ⟨List.mem_cons_of_mem a h1, fun hx => h2 (List.mem_cons_of_mem a hx)⟩
      · rintro ⟨h1, h2⟩
        by_cases hxa : x = a
        · exact Or.inl hxa
        · rcases List.mem_cons.mp h1 with rfl | h1
          · exact Or.inl rfl
          · exact Or.inr ⟨h1, by simp [List.mem_cons, hxa, h2]⟩

/-- Membership is unchanged by JS-Set deduplication. -/
theorem mem_jsSetDedup {x : String} {l : List String} : x ∈ jsSetDedup l ↔ x ∈ l := by
  simp [jsSetDedup, mem_jsSetDedupAux]

/-- The dedup worker produces no duplicates. -/
theorem nodup_jsSetDedupAux : ∀ (seen l : List String), (jsSetDedupAux seen l).Nodup := by
  intro seen l
  induction l generalizing seen with
  | nil => exact List.nodup_nil
  | cons a rest ih =>
    by_cases h : seen.contains a = true
    · rw [jsSetDedupAux, if_pos h]; exact ih seen
    · rw [jsSetDedupAux, if_neg h]
      refine List.Nodup.cons ?_ (ih (a :: seen))
      intro hmem
      exact (mem_jsSetDedupAux (a :: seen) rest).mp hmem |>.2 (List.mem_cons_self a seen)

/-- JS-Set deduplication produces no duplicates. -/
theorem nodup_jsSetDedup (l : List String) : (jsSetDedup l).Nodup :=
  nodup_jsSetDedupAux [] l

/-- Hiding a flow adds exactly that id to the hidden set. -/
theorem mem_hideFlowUpdate {H : List String} {X s : String} :
    s ∈ hideFlowUpdate H X ↔ s ∈ H ∨ s = X := by
  simp [hideFlowUpdate, mem_jsSetDedup]

/-- Boolean version of `mem_hideFlowUpdate`, as consumed by the filters. -/
theorem contains_hideFlowUpdate (H : List String) (X s : String) :
    (hideFlowUpdate H X).contains s = (H.contains s || (s == X)) := by
  apply Bool.eq_iff_iff.mpr
  simp [List.elem_iff, mem_hideFlowUpdate]

/-- The probe loop on a list whose first success is `c`: it returns `c` and
probes exactly the prefix up to and including `c`. -/
theorem probeLoop_first_success (probe : String → Bool) (c : String) :
    ∀ (pre post : List String), (∀ x ∈ pre, probe x = false) → probe c = true →
      probeLoop probe (pre ++ c :: post) = (some c, pre ++ [c])
  | [], post, _, hc => by simp [probeLoop, hc]
  | a :: t, post, hpre, hc => by
    have ha : probe a = false := hpre a (List.mem_cons_self a t)
    have ih := probeLoop_first_success probe c t post
      (fun x hx => hpre x (List.mem_cons_of_mem a hx)) hc
    simp [probeLoop, ha, ih]

/-- The probe loop on a list with no success probes everything and finds
nothing. -/
theorem probeLoop_all_fail (probe : String → Bool) :
    ∀ l : List String, (∀ x ∈ l, probe x = false) → probeLoop probe l = (none, l)
  | [], _ => rfl
  | a :: t, h => by
    have ha : probe a = false := h a (List.mem_cons_self a t)
    have ih := probeLoop_all_fail probe t (fun x hx => h x (List.mem_cons_of_mem a hx))
    simp [probeLoop, ha, ih]

/-- Dropping already-empty files before an entrypoint-filtering stage makes no
difference: files emptied by the stage are dropped either way. -/
theorem filter_nonEmpty_map_epUpdate (p : EpNode → Bool) (M : List FileNode) :
    ((M.filter (fun f => !f.entrypoints.isEmpty)).map (epUpdate p)).filter
        (fun f => !f.entrypoints.isEmpty) =
      (M.map (epUpdate p)).filter (fun f => !f.entrypoints.isEmpty) := by
  rw [List.filter_map, List.filter_map, List.filter_filter]
  refine congrArg _ (List.filter_congr ?_)
  intro f _
  cases hfe : f.entrypoints with
  | nil => simp [epUpdate, hfe]
  | cons e t => simp [hfe]

/-- Filtering the entrypoints of each file twice is one conjunctive filter. -/
theorem epUpdate_epUpdate (p q : EpNode → Bool) (f : FileNode) :
    epUpdate p (epUpdate q f) = epUpdate (fun e => p e && q e) f := by
  simp [epUpdate, List.filter_filter]

/-- Two entrypoint-filtering stages compose into one conjunctive stage. -/
theorem epFilterStage_epFilterStage (p q : EpNode → Bool) (l : List FileNode) :
    epFilterStage p (epFilterStage q l) = epFilterStage (fun e => p e && q e) l := by
  unfold epFilterStage
  rw [filter_nonEmpty_map_epUpdate, List.map_map]
  have h : epUpdate p ∘ epUpdate q = epUpdate (fun e => p e && q e) :=
    funext (epUpdate_epUpdate p q)
  rw [h]

/-- Entrypoint-filtering stages commute. -/
theorem epFilterStage_comm (p q : EpNode → Bool) (l : List FileNode) :
    epFilterStage p (epFilterStage q l) = epFilterStage q (epFilterStage p l) := by
  rw [epFilterStage_epFilterStage, epFilterStage_epFilterStage]
  have h : (fun e => p e && q e) = (fun e => q e && p e) :=
    funext fun e => Bool.and_comm (p e) (q e)
  rw [h]

/-- Rebuilding a file node with the extended hidden-flow set equals rebuilding
with the old set and then dropping the newly hidden flow (`normalizeEntrypoint`
preserves `flowId`, so the raw-side and node-side filters agree). -/
theorem fileNodeOfRaw_hideFlow (root : String) (H : List String) (X : String) (rf : RawFile) :
    fileNodeOfRaw root (hideFlowUpdate H X) rf =
      epUpdate (fun ep => !(ep.flowId == X)) (fileNodeOfRaw root H rf) := by
  unfold fileNodeOfRaw epUpdate
  refine congrArg (FileNode.mk _ _) ?_
  show ((rf.entrypoints.getD []).filter
      (fun ep => !(hideFlowUpdate H X).contains ep.flowId)).map
        (fun ep => normalizeEntrypoint ep root) =
    (((rf.entrypoints.getD []).filter (fun ep => !H.contains ep.flowId)).map
        (fun ep => normalizeEntrypoint ep root)).filter
      (fun ep => !(ep.flowId == X))
  rw [List.filter_map]
  refine congrArg _ ?_
  show (rf.entrypoints.getD []).filter (fun ep => !(hideFlowUpdate H X).contains ep.flowId) =
    ((rf.entrypoints.getD []).filter (fun ep => !H.contains ep.flowId)).filter
      (fun ep => !(ep.flowId == X))
  rw [List.filter_filter]
  refine List.filter_congr ?_
  intro ep _
  rw [contains_hideFlowUpdate]
  cases hH : H.contains ep.flowId <;> cases hX : ep.flowId == X <;> rfl

/-- The hidden-file/hidden-flow stage under the extended hidden-flow set. -/
theorem baseFiles_hideFlow (a : RawAnalysis) (root : String) (H : List String) (X : String)
    (hfiles : List String) :
    baseFiles a root (hideFlowUpdate H X) hfiles =
      removeFlow X (baseFiles a root H hfiles) := by
  unfold baseFiles removeFlow epFilterStage
  rw [filter_nonEmpty_map_epUpdate, List.map_map]
  have h : fileNodeOfRaw root (hideFlowUpdate H X) =
      epUpdate (fun ep => !(ep.flowId == X)) ∘ fileNodeOfRaw root H :=
    funext fun rf => fileNodeOfRaw_hideFlow root H X rf
  rw [h]

/-- The whole pre-sort pipeline under the extended hidden-flow set. -/
theorem visibleFiles_hideFlow (a : RawAnalysis) (root : String) (H : List String) (X : String)
    (hfiles : List String) (foc : Option String) :
    visibleFiles a root (hideFlowUpdate H X) hfiles foc =
      removeFlow X (visibleFiles a root H hfiles foc) := by
  unfold visibleFiles
  cases foc with
  | none => exact baseFiles_hideFlow a root H X hfiles
  | some fid =>
    by_cases hfid : fid = ""
    · simp only [hfid, if_pos rfl]
      exact baseFiles_hideFlow a root H X hfiles
    · simp only [if_neg hfid]
      rw [applyFocus_eq_stage, applyFocus_eq_stage, baseFiles_hideFlow]
      exact epFilterStage_comm _ _ _

/-- Sorting the file list commutes with any per-file update that keeps the
relative path (the sort key) unchanged. -/
theorem jsSort_fileCompare_map (g : FileNode → FileNode)
    (hg : ∀ f, (g f).fileRel = f.fileRel) (l : List FileNode) :
    (jsSort fileCompare l).map g = jsSort fileCompare (l.map g) := by
  unfold jsSort
  refine List.map_insertionSort (cmpLe fileCompare) (cmpLe fileCompare) g l ?_
  intro x _ y _
  show cmpLe fileCompare x y ↔ cmpLe fileCompare (g x) (g y)
  unfold cmpLe fileCompare
  rw [hg x, hg y]

/-- Per-file sorting commutes with per-file entrypoint filtering. -/
theorem epSortNode_epUpdate (p : EpNode → Bool) (f : FileNode) :
    epUpdate p (epSortNode f) = epSortNode (epUpdate p f) := by
  unfold epUpdate epSortNode
  refine congrArg (FileNode.mk _ _) ?_
  exact jsSort_filter epCompare p f.entrypoints

/-- Per-file sorting does not change emptiness. -/
theorem epSortNode_isEmpty (f : FileNode) :
    (epSortNode f).entrypoints.isEmpty = f.entrypoints.isEmpty := by
  unfold epSortNode jsSort
  cases hfe : f.entrypoints with
  | nil => rfl
  | cons e t =>
    have hlen : ((e :: t).insertionSort (cmpLe epCompare)).length = (e :: t).length :=
      List.length_insertionSort _ _
    cases hs : (e :: t).insertionSort (cmpLe epCompare) with
    | nil => rw [hs] at hlen; simp at hlen
    | cons x u => rfl

/-- The empty-file drop commutes with per-file sorting. -/
theorem filter_nonEmpty_map_epSortNode (T : List FileNode) :
    (T.map epSortNode).filter (fun f => !f.entrypoints.isEmpty) =
      (T.filter (fun f => !f.entrypoints.isEmpty)).map epSortNode := by
  rw [List.filter_map]
  refine congrArg _ (List.filter_congr ?_)
  intro f _
  show (!(epSortNode f).entrypoints.isEmpty) = (!f.entrypoints.isEmpty)
  rw [epSortNode_isEmpty]

/-- Hiding one flow and rebuilding equals rebuilding with the old hidden set
and then removing exactly that flow from every file (dropping files left
empty): the tree-level effect of `hideFlow`. -/
theorem rebuildFiles_hideFlow (analysis : Option RawAnalysis) (root : Option String)
    (H hfiles : List String) (foc : Option String) (X : String) :
    rebuildFiles analysis root (hideFlowUpdate H X) hfiles foc =
      removeFlow X (rebuildFiles analysis root H hfiles foc) := by
  match analysis, root with
  | none, _ => rfl
  | some a, none => rfl
  | some a, some r =>
    by_cases hr : r = ""
    · simp only [rebuildFiles, if_pos hr]
      rfl
    · have u : ∀ hflows : List String,
          rebuildFiles (some a) (some r) hflows hfiles foc =
            if r = "" then []
            else (jsSort fileCompare (visibleFiles a r hflows hfiles foc)).map epSortNode :=
        fun _ => rfl
      rw [u, u, if_neg hr, if_neg hr, visibleFiles_hideFlow]
      unfold removeFlow epFilterStage
      rw [List.map_map]
      have h1 : epUpdate (fun ep => !(ep.flowId == X)) ∘ epSortNode =
          epSortNode ∘ epUpdate (fun ep => !(ep.flowId == X)) :=
        funext fun f => epSortNode_epUpdate _ f
      rw [h1, ← List.map_map, filter_nonEmpty_map_epSortNode,
        jsSort_fileCompare_map (epUpdate _) (fun _ => rfl),
        ← jsSort_filter fileCompare]

/-- Normalization keeps the flow id unchanged. -/
theorem normalizeEntrypoint_flowId (rep : RawEntrypoint) (root : String) :
    (normalizeEntrypoint rep root).flowId = rep.flowId := rfl

/-- The relative path of a built file node is the raw path. -/
theorem fileNodeOfRaw_fileRel (root : String) (hflows : List String) (rf : RawFile) :
    (fileNodeOfRaw root hflows rf).fileRel = rf.path := rfl

/-- Membership in the hidden-file/hidden-flow stage. -/
theorem mem_baseFiles {a : RawAnalysis} {root : String} {hflows hfiles : List String}
    {fn : FileNode} :
    fn ∈ baseFiles a root hflows hfiles ↔
      ∃ rf ∈ a.files.getD [], hfiles.contains rf.path = false ∧
        fn = fileNodeOfRaw root hflows rf ∧ fn.entrypoints ≠ [] := by
  unfold baseFiles
  constructor
  · intro h
    obtain ⟨h1, h2⟩ := List.mem_filter.mp h
    obtain ⟨rf, hrf, rfl⟩ := List.mem_map.mp h1
    obtain ⟨hrf2, hhid⟩ := List.mem_filter.mp hrf
    exact ⟨rf, hrf2, by simpa using hhid, rfl,
      by simpa [List.isEmpty_eq_false] using h2⟩
  · rintro ⟨rf, h1, h2, rfl, h4⟩
    refine List.mem_filter.mpr
      ⟨List.mem_map.mpr ⟨rf, List.mem_filter.mpr ⟨h1, by simpa using h2⟩, rfl⟩, ?_⟩
    simpa [List.isEmpty_eq_false] using h4

/-- Membership in the entrypoint list of a built file node. -/
theorem mem_fileNodeOfRaw_entrypoints {root : String} {hflows : List String}
    {rf : RawFile} {ep : EpNode} :
    ep ∈ (fileNodeOfRaw root hflows rf).entrypoints ↔
      ∃ rep ∈ rf.entrypoints.getD [], hflows.contains rep.flowId = false ∧
        ep = normalizeEntrypoint rep root := by
  unfold fileNodeOfRaw
  constructor
  · intro h
    obtain ⟨rep, hrep, rfl⟩ := List.mem_map.mp h
    obtain ⟨h1, h2⟩ := List.mem_filter.mp hrep
    exact ⟨rep, h1, by simpa using h2, rfl⟩
  · rintro ⟨rep, h1, h2, rfl⟩
    exact List.mem_map.mpr ⟨rep, List.mem_filter.mpr ⟨h1, by simpa using h2⟩, rfl⟩

/-- Membership in the focus stage. -/
theorem mem_applyFocus {fid : String} {files : List FileNode} {fn : FileNode} :
    fn ∈ applyFocus fid files ↔
      ∃ g ∈ files, fn = epUpdate (fun ep => ep.flowId == fid) g ∧ fn.entrypoints ≠ [] := by
  rw [applyFocus_eq_stage]
  unfold epFilterStage
  constructor
  · intro h
    obtain ⟨h1, h2⟩ := List.mem_filter.mp h
    obtain ⟨g, hg, rfl⟩ := List.mem_map.mp h1
    exact ⟨g, hg, rfl, by simpa [List.isEmpty_eq_false] using h2⟩
  · rintro ⟨g, hg, rfl, h4⟩
    exact List.mem_filter.mpr ⟨List.mem_map.mpr ⟨g, hg, rfl⟩, by
      simpa [List.isEmpty_eq_false] using h4⟩

/-- Membership in the sorted output of `_rebuildFiles`, for a truthy root. -/
theorem mem_rebuildFiles {a : RawAnalysis} {root : String} {hflows hfiles : List String}
    {foc : Option String} {fn : FileNode} (hr : root ≠ "") :
    fn ∈ rebuildFiles (some a) (some root) hflows hfiles foc ↔
      ∃ g ∈ visibleFiles a root hflows hfiles foc, fn = epSortNode g := by
  have u : rebuildFiles (some a) (some root) hflows hfiles foc =
      if root = "" then []
      else (jsSort fileCompare (visibleFiles a root hflows hfiles foc)).map epSortNode := rfl
  rw [u, if_neg hr]
  constructor
  · intro h
    obtain ⟨g, hg, rfl⟩ := List.mem_map.mp h
    exact ⟨g, mem_jsSort.mp hg, rfl⟩
  · rintro ⟨g, hg, rfl⟩
    exact List.mem_map.mpr ⟨g, mem_jsSort.mpr hg, rfl⟩

/-- What holds of every pre-sort visible file: not a hidden file, nonempty,
no hidden flow among its entrypoints, and, under an active focus, only the
focused flow. -/
theorem visibleFiles_spec {a : RawAnalysis} {root : String} {hflows hfiles : List String}
    {foc : Option String} {g : FileNode} (hg : g ∈ visibleFiles a root hflows hfiles foc) :
    hfiles.contains g.fileRel = false ∧ g.entrypoints ≠ [] ∧
      ∀ ep ∈ g.entrypoints, hflows.contains ep.flowId = false ∧
        ∀ fid, foc = some fid → fid ≠ "" → ep.flowId = fid := by
  have base : ∀ x : FileNode, x ∈ baseFiles a root hflows hfiles →
      hfiles.contains x.fileRel = false ∧ x.entrypoints ≠ [] ∧
        ∀ ep ∈ x.entrypoints, hflows.contains ep.flowId = false := by
    intro x hb
    obtain ⟨rf, _, h2, rfl, h4⟩ := mem_baseFiles.mp hb
    refine ⟨h2, h4, ?_⟩
    intro ep hep
    obtain ⟨rep, _, hrep2, rfl⟩ := mem_fileNodeOfRaw_entrypoints.mp hep
    exact hrep2
  cases foc with
  | none =>
    rw [show visibleFiles a root hflows hfiles none = baseFiles a root hflows hfiles from rfl]
      at hg
    obtain ⟨hA, hB, hC⟩ := base g hg
    exact ⟨hA, hB, fun ep hep => ⟨hC ep hep, fun fid hfid => nomatch hfid⟩⟩
  | some fid =>
    rw [show visibleFiles a root hflows hfiles (some fid) =
        if fid = "" then baseFiles a root hflows hfiles
        else applyFocus fid (baseFiles a root hflows hfiles) from rfl] at hg
    by_cases hfid : fid = ""
    · rw [if_pos hfid] at hg
      obtain ⟨hA, hB, hC⟩ := base g hg
      refine ⟨hA, hB, fun ep hep => ⟨hC ep hep, ?_⟩⟩
      intro fid2 hfid2 hne
      cases hfid2
      exact absurd hfid hne
    · rw [if_neg hfid] at hg
      obtain ⟨h, hh, rfl, hne⟩ := mem_applyFocus.mp hg
      obtain ⟨hA, _, hC⟩ := base h hh
      refine ⟨hA, hne, ?_⟩
      intro ep hep
      obtain ⟨hep1, hep2⟩ := List.mem_filter.mp hep
      refine ⟨hC ep hep1, ?_⟩
      intro fid2 hfid2 _
      cases hfid2
      exact eq_of_beq hep2

/-- Membership in the pre-sort pipeline under an active focus with no hidden
state: files come from raw files, restricted to the focused flow. -/
theorem mem_visibleFiles_focus {a : RawAnalysis} {root X : String} {g : FileNode}
    (hX : X ≠ "") :
    g ∈ visibleFiles a root [] [] (some X) ↔
      ∃ rf ∈ a.files.getD [],
        g = epUpdate (fun ep => ep.flowId == X) (fileNodeOfRaw root [] rf) ∧
        g.entrypoints ≠ [] := by
  rw [show visibleFiles a root [] [] (some X) =
      if X = "" then baseFiles a root [] []
      else applyFocus X (baseFiles a root [] []) from rfl, if_neg hX]
  constructor
  · intro hg
    obtain ⟨h, hh, rfl, hne⟩ := mem_applyFocus.mp hg
    obtain ⟨rf, h1, _, rfl, _⟩ := mem_baseFiles.mp hh
    exact ⟨rf, h1, rfl, hne⟩
  · rintro ⟨rf, h1, rfl, hne⟩
    have hfn : (fileNodeOfRaw root [] rf).entrypoints ≠ [] := by
      intro he
      apply hne
      show ((fileNodeOfRaw root [] rf).entrypoints.filter _) = []
      rw [he]
      rfl
    exact mem_applyFocus.mpr ⟨fileNodeOfRaw root [] rf,
      mem_baseFiles.mpr ⟨rf, h1, rfl, rfl, hfn⟩, rfl, hne⟩

/-- A raw file survives focus filtering exactly when it holds an entrypoint
with the focused flow id. -/
theorem focus_entrypoints_ne_nil {root : String} {rf : RawFile} {X : String} :
    (epUpdate (fun ep => ep.flowId == X) (fileNodeOfRaw root [] rf)).entrypoints ≠ [] ↔
      ∃ rep ∈ rf.entrypoints.getD [], rep.flowId = X := by
  show ((fileNodeOfRaw root [] rf).entrypoints.filter (fun ep => ep.flowId == X)) ≠ [] ↔ _
  rw [Ne, List.filter_eq_nil_iff]
  constructor
  · intro h
    push_neg at h
    obtain ⟨ep, hep, hp⟩ := h
    obtain ⟨rep, h1, _, rfl⟩ := mem_fileNodeOfRaw_entrypoints.mp hep
    refine ⟨rep, h1, ?_⟩
    have hbeq : ((normalizeEntrypoint rep root).flowId == X) = true := by
      simpa using hp
    simpa [normalizeEntrypoint_flowId] using eq_of_beq hbeq
  · rintro ⟨rep, h1, h2⟩
    intro hall
    have hepmem : normalizeEntrypoint rep root ∈ (fileNodeOfRaw root [] rf).entrypoints :=
      mem_fileNodeOfRaw_entrypoints.mpr ⟨rep, h1, rfl, rfl⟩
    have : ((normalizeEntrypoint rep root).flowId == X) = true := by
      simp [normalizeEntrypoint_flowId, h2]
    exact absurd this (by simpa using hall _ hepmem)

mutual

/-- Normalization preserves the cycle-leaf invariant on one call. -/
theorem normalizeCall_cycleOk (c : RawCall) (root : String) (ord : Nat)
    (h : rawCycleOk c = true) : normCycleOk (normalizeCall c root ord) = true := by
  match c with
  | .mk label contract kindLabel tooltip cycle location calls =>
    cases calls with
    | none =>
      simp [normalizeCall, normCycleOk, normalizeCallList, normCycleOkList]
    | some cs =>
      simp only [rawCycleOk, Bool.and_eq_true] at h
      simp only [normalizeCall, normCycleOk, Bool.and_eq_true]
      constructor
      · rcases hcy : cycle.getD false with _ | _
        · simp
        · rw [hcy] at h
          have hcs : cs.isEmpty = true := by simpa using h.1
          have : cs = [] := by simpa [List.isEmpty_iff] using hcs
          subst this
          simp [normalizeCallList]
      · exact normalizeCallList_cycleOk cs root 1 h.2

/-- Normalization preserves the cycle-leaf invariant on a call list. -/
theorem normalizeCallList_cycleOk (cs : List RawCall) (root : String) (idx : Nat)
    (h : rawCycleOkList cs = true) :
    normCycleOkList (normalizeCallList cs root idx) = true := by
  match cs with
  | [] => rfl
  | c :: rest =>
    simp only [rawCycleOkList, Bool.and_eq_true] at h
    simp only [normalizeCallList, normCycleOkList, Bool.and_eq_true]
    exact ⟨normalizeCall_cycleOk c root idx h.1,
      normalizeCallList_cycleOk rest root (idx + 1) h.2⟩

end


/-- Counting occurrences survives a filter the element passes. -/
theorem count_filter_pos {α : Type} [DecidableEq α] {p : α → Bool} {a : α}
    (h : p a = true) : ∀ l : List α, (l.filter p).count a = l.count a
  | [] => rfl
  | b :: t => by
    by_cases hb : p b = true
    · rw [List.filter_cons_of_pos hb, List.count_cons, List.count_cons,
        count_filter_pos h t]
    · rw [List.filter_cons_of_neg (by simpa using hb), List.count_cons,
        count_filter_pos h t]
      have hne : ¬b = a := fun he => by rw [he] at hb; exact hb h
      simp [hne]

/-- A filtered-out element has no occurrences left. -/
theorem count_filter_neg {α : Type} [DecidableEq α] {p : α → Bool} {a : α}
    (h : p a = false) (l : List α) : (l.filter p).count a = 0 := by
  simp [List.count_eq_zero, List.mem_filter, h]

/-- C4: on process close, the extractor invocation resolves with the parsed
JSON value whenever stdout parsed as one document, even when the embedded ok
field is false; when parsing failed it rejects with the trimmed stderr if the
exit code is nonzero, with the generic exit-code message if that trimmed
stderr is empty, and with the protocol-error message carrying the captured
stderr when the exit code is zero. -/
theorem runExtractor_close_settlement :
    (∀ (v : RawAnalysis) (stderr : String) (code : Int),
      closeOutcome (some v) stderr code = .ok v) ∧
    (∀ (v : RawAnalysis) (stderr : String) (code : Int), v.ok = false →
      closeOutcome (some v) stderr code = .ok v) ∧
    (∀ (stderr : String) (code : Int), code ≠ 0 → jsTrim stderr ≠ "" →
      closeOutcome (α := RawAnalysis) none stderr code = .error (jsTrim stderr)) ∧
    (∀ (stderr : String) (code : Int), code ≠ 0 → jsTrim stderr = "" →
      closeOutcome (α := RawAnalysis) none stderr code =
        .error ("Extractor exited with code " ++ toString code)) ∧
    (∀ stderr : String,
      closeOutcome (α := RawAnalysis) none stderr 0 =
        .error ("Failed to parse extractor output as JSON. stderr: " ++ jsTrim stderr)) := by
  refine ⟨fun v s c => rfl, fun v s c _ => rfl, ?_, ?_, ?_⟩
  · intro s c hc hs
    simp [closeOutcome, hc, hs]
  · intro s c hc hs
    simp [closeOutcome, hc, hs]
  · intro s
    simp [closeOutcome]

/-- C4 witness: the three settlement shapes at concrete inputs, including an
ok:false payload resolving successfully. -/
theorem runExtractor_close_settlement_witness :
    closeOutcome (α := RawAnalysis) none " boom " 1 = .error "boom" ∧
    closeOutcome (α := RawAnalysis) none "" 2 = .error "Extractor exited with code 2" ∧
    closeOutcome (α := RawAnalysis) none "oops" 0 =
      .error "Failed to parse extractor output as JSON. stderr: oops" ∧
    failedAnalysis.ok = false ∧
    closeOutcome (some failedAnalysis) "" 0 = .ok failedAnalysis := by
  refine ⟨?_, ?_, ?_, rfl, runExtractor_close_settlement.2.1 failedAnalysis "" 0 rfl⟩
  · have h := runExtractor_close_settlement.2.2.1 " boom " 1 (by decide) (by decide)
    rwa [show jsTrim " boom " = "boom" by decide] at h
  · have h := runExtractor_close_settlement.2.2.2.1 "" 2 (by decide) (by decide)
    exact h
  · have h := runExtractor_close_settlement.2.2.2.2 "oops"
    rwa [show jsTrim "oops" = "oops" by decide] at h

/-- C5: the resolver returns the first candidate whose probe succeeds and
probes nothing after it, never touching the uvx or pipx fallbacks; when every
candidate and both fallbacks fail it falls back to the explicit interpreter
setting if set, else the shebang-derived interpreter if found, else the bare
default python3. -/
theorem resolver_first_success_short_circuit :
    (∀ (e : ResolverEnv) (pre : List String) (c : String) (post : List String),
      uniqueCandidates e = pre ++ c :: post →
      (∀ x ∈ pre, e.canImportSlither x = false) →
      e.canImportSlither c = true →
      (resolvePythonPathForSlither e).result = { cmd := c, args := [] } ∧
      (resolvePythonPathForSlither e).probed = pre ++ [c] ∧
      (resolvePythonPathForSlither e).triedUvx = false ∧
      (resolvePythonPathForSlither e).triedPipx = false ∧
      ∀ x ∈ post, x ∉ (resolvePythonPathForSlither e).probed) ∧
    (∀ e : ResolverEnv,
      (∀ x ∈ uniqueCandidates e, e.canImportSlither x = false) →
      e.uvxOk = false → e.pipxOk = false →
      (e.pythonPathSetting ≠ "" →
        (resolvePythonPathForSlither e).result = { cmd := e.pythonPathSetting, args := [] }) ∧
      (∀ s : String, e.pythonPathSetting = "" → e.slitherPython = some s → s ≠ "" →
        (resolvePythonPathForSlither e).result = { cmd := s, args := [] }) ∧
      (e.pythonPathSetting = "" → (e.slitherPython = none ∨ e.slitherPython = some "") →
        (resolvePythonPathForSlither e).result = { cmd := "python3", args := [] })) := by
  constructor
  · intro e pre c post heq hpre hc
    have hres : resolvePythonPathForSlither e =
        { result := { cmd := c, args := [] }, probed := pre ++ [c],
          triedUvx := false, triedPipx := false } := by
      unfold resolvePythonPathForSlither
      rw [heq, probeLoop_first_success e.canImportSlither c pre post hpre hc]
    have hnodup : (pre ++ c :: post).Nodup := by
      rw [← heq]
      exact nodup_jsSetDedup _
    rw [hres]
    refine ⟨rfl, rfl, rfl, rfl, ?_⟩
    intro x hx hmem
    rw [List.nodup_append] at hnodup
    rcases List.mem_append.mp hmem with hmem2 | hmem2
    · exact hnodup.2.2 hmem2 (List.mem_cons_of_mem c hx)
    · have hxc : x = c := by simpa using hmem2
      subst hxc
      exact (List.nodup_cons.mp hnodup.2.1).1 hx
  · intro e hall huvx hpipx
    have hres : resolvePythonPathForSlither e =
        { result :=
            if e.pythonPathSetting ≠ "" then { cmd := e.pythonPathSetting, args := [] }
            else
              match e.slitherPython with
              | some s => if s ≠ "" then { cmd := s, args := [] }
                          else { cmd := "python3", args := [] }
              | none => { cmd := "python3", args := [] },
          probed := uniqueCandidates e, triedUvx := true, triedPipx := true } := by
      unfold resolvePythonPathForSlither
      rw [probeLoop_all_fail e.canImportSlither (uniqueCandidates e) hall]
      simp [huvx, hpipx]
    refine ⟨?_, ?_, ?_⟩
    · intro hset
      rw [hres]
      simp [hset]
    · intro s hset hsp hs
      rw [hres]
      simp [hset, hsp, hs]
    · intro hset hd
      rw [hres]
      rcases hd with hd | hd <;> simp [hset, hd]

/-- C5 witness: with candidates c1..c5 and bare names, probes failing for
c1..c3 and succeeding for c4, the resolver returns c4, probes only c1..c4,
and skips the package-fetch fallbacks; with everything failing, it returns
the explicit override. -/
theorem resolver_first_success_short_circuit_witness :
    (resolvePythonPathForSlither probeExampleEnv).result = { cmd := "c4", args := [] } ∧
    (resolvePythonPathForSlither probeExampleEnv).probed = ["c1", "c2", "c3", "c4"] ∧
    (resolvePythonPathForSlither probeExampleEnv).triedUvx = false ∧
    (resolvePythonPathForSlither probeExampleEnv).triedPipx = false ∧
    "c5" ∉ (resolvePythonPathForSlither probeExampleEnv).probed ∧
    (resolvePythonPathForSlither fallbackExampleEnv).result =
      { cmd := "/opt/venv/bin/python", args := [] } := by
  have h1 := resolver_first_success_short_circuit.1 probeExampleEnv ["c1", "c2", "c3"] "c4"
    ["c5", "python3", "python"] (by decide) (by decide) (by decide)
  have h2 := (resolver_first_success_short_circuit.2 fallbackExampleEnv (by decide)
    rfl rfl).1 (by decide)
  exact ⟨h1.1, h1.2.1, h1.2.2.1, h1.2.2.2.1,
    h1.2.2.2.2 "c5" (List.mem_cons_self _ _), h2⟩

/-- C6: the review identity of an entrypoint node is its flow id; of a call
node with a location it is the absolute file, line and label joined into one
string; and a file renders as fully reviewed exactly when it has at least one
entrypoint and every entrypoint flow id is in the persisted reviewed set
(flow ids being nonempty strings, per the data model). -/
theorem review_identity_and_fully_reviewed :
    (∀ ep : EpNode, ep.flowId ≠ "" → getReviewId (.entrypoint ep) = some ep.flowId) ∧
    (∀ (c : CallNode) (loc : Location), c.location = some loc → loc.file ≠ "" →
      getReviewId (.call c) =
        some (loc.file ++ ":" ++ extNumToString loc.line ++ ":" ++ c.label)) ∧
    (∀ (reviewed : List String) (f : FileNode),
      (∀ ep ∈ f.entrypoints, ep.flowId ≠ "") →
      (fileAllReviewed reviewed f = true ↔
        f.entrypoints ≠ [] ∧ ∀ ep ∈ f.entrypoints, ep.flowId ∈ reviewed)) := by
  refine ⟨?_, ?_, ?_⟩
  · intro ep h
    simp [getReviewId, h]
  · intro c loc hloc hfile
    simp [getReviewId, hloc, hfile]
  · intro reviewed f hne
    unfold fileAllReviewed
    rw [Bool.and_eq_true, List.all_eq_true]
    constructor
    · rintro ⟨h1, h2⟩
      refine ⟨by simpa [List.isEmpty_eq_false] using h1, ?_⟩
      intro ep hep
      have h3 := h2 ep hep
      rw [Bool.and_eq_true] at h3
      simpa [List.elem_iff] using h3.2
    · rintro ⟨h1, h2⟩
      refine ⟨by simpa [List.isEmpty_eq_false] using h1, ?_⟩
      intro ep hep
      rw [Bool.and_eq_true]
      exact ⟨by simpa using hne ep hep, by simpa [List.elem_iff] using h2 ep hep⟩

/-- C6 witness: the identities of a concrete entrypoint and call node, and a
file with its one entrypoint reviewed rendering as fully reviewed. -/
theorem review_identity_and_fully_reviewed_witness :
    getReviewId (.entrypoint exampleEpNode) = some "F.sol::C.a" ∧
    getReviewId (.call exampleCallNode) = some "/ws/F.sol:5:transfer" ∧
    fileAllReviewed ["F.sol::C.a"]
      { fileRel := "F.sol", fileAbs := "/ws/F.sol", entrypoints := [exampleEpNode] } = true := by
  refine ⟨?_, ?_, ?_⟩
  · exact review_identity_and_fully_reviewed.1 exampleEpNode (by decide)
  · have h := review_identity_and_fully_reviewed.2.1 exampleCallNode
      { file := "/ws/F.sol", line := .fin 5, character := .fin 2 } rfl (by decide)
    exact h.trans (by decide)
  · refine (review_identity_and_fully_reviewed.2.2 ["F.sol::C.a"] _ ?_).mpr ⟨by simp, ?_⟩
    · intro ep hep
      have : ep = exampleEpNode := by simpa using hep
      subst this
      decide
    · intro ep hep
      have : ep = exampleEpNode := by simpa using hep
      subst this
      simp [exampleEpNode]

/-- C7 counterexample: at a raw location whose line is the non-finite value
Infinity, normalization passes the line through unchanged rather than
defaulting it to 0, so missing-or-non-finite-implies-0 fails as stated. -/
theorem normalizeLocation_infinity_counterexample :
    normalizeLocation (some { file := some "a.sol", line := some .inf, character := none })
      "/ws" = some { file := "/ws/a.sol", line := .inf, character := .fin 0 } ∧
    ExtNum.inf ≠ ExtNum.fin 0 := by decide

/-- C7 amended: normalization returns null when the location is absent or its
file is missing or empty; otherwise relative files resolve against the
workspace root and absolute files pass through; line and character default to
0 exactly on JS-falsy input (absent, null, NaN, or 0), while all other
numbers, the infinities included, pass through unchanged. -/
theorem normalizeLocation_spec :
    (∀ root : String, normalizeLocation none root = none) ∧
    (∀ (loc : RawLocation) (root : String), (loc.file = none ∨ loc.file = some "") →
      normalizeLocation (some loc) root = none) ∧
    (∀ (loc : RawLocation) (root f : String), loc.file = some f → f ≠ "" →
      normalizeLocation (some loc) root =
        some { file := if pathIsAbsolute f then f else pathJoin root f
               line := jsNumOrZero loc.line
               character := jsNumOrZero loc.character }) ∧
    (∀ x : Option JsNum, (x = none ∨ x = some .nan ∨ x = some (.fin 0)) →
      jsNumOrZero x = .fin 0) ∧
    (jsNumOrZero (some .inf) = .inf ∧ jsNumOrZero (some .negInf) = .negInf ∧
      ∀ n : Int, jsNumOrZero (some (.fin n)) = .fin n) := by
  refine ⟨fun root => rfl, ?_, ?_, ?_, rfl, rfl, fun n => rfl⟩
  · intro loc root hd
    rcases hd with hd | hd <;> simp [normalizeLocation, hd]
  · intro loc root f hf hne
    simp [normalizeLocation, hf, hne]
  · intro x hd
    rcases hd with hd | hd | hd <;> simp [jsNumOrZero, hd]

/-- C7 witness: a relative file with a NaN line and a finite character is
resolved against the root with the line defaulted to 0. -/
theorem normalizeLocation_spec_witness :
    normalizeLocation (some { file := some "a.sol", line := some .nan, character := some (.fin 7) })
      "/ws" = some { file := "/ws/a.sol", line := .fin 0, character := .fin 7 } := by
  have h := normalizeLocation_spec.2.2.1
    { file := some "a.sol", line := some .nan, character := some (.fin 7) } "/ws" "a.sol"
    rfl (by decide)
  exact h.trans (by decide)

/-- C8: raw call trees as the analyzer adapter emits them carry cycle=true
only on leaves (the producer invariant `rawCycleOk`, modelled from the spec
since the adapter is outside src), and ingestion preserves it: every node of
the normalized output tree whose cycle flag is true has an empty calls list,
both below a call and below an entrypoint. -/
theorem ingestion_preserves_cycle_leaves :
    (∀ (c : RawCall) (root : String) (ord : Nat), rawCycleOk c = true →
      normCycleOk (normalizeCall c root ord) = true) ∧
    (∀ (rep : RawEntrypoint) (root : String) (cs : List RawCall), rep.calls = some cs →
      rawCycleOkList cs = true →
      normCycleOkList (normalizeEntrypoint rep root).calls = true) ∧
    (∀ (rep : RawEntrypoint) (root : String), rep.calls = none →
      normCycleOkList (normalizeEntrypoint rep root).calls = true) := by
  refine ⟨normalizeCall_cycleOk, ?_, ?_⟩
  · intro rep root cs hcs h
    show normCycleOkList
      (match rep.calls with
       | none => []
       | some cs => normalizeCallList cs root 1) = true
    rw [hcs]
    exact normalizeCallList_cycleOk cs root 1 h
  · intro rep root hcs
    show normCycleOkList
      (match rep.calls with
       | none => []
       | some cs => normalizeCallList cs root 1) = true
    rw [hcs]
    rfl

/-- C8 witness: a concrete cycle-terminator leaf is well-formed raw and stays
a childless cycle node after normalization. -/
theorem ingestion_preserves_cycle_leaves_witness :
    rawCycleOk exampleCycleLeaf = true ∧
    normCycleOk (normalizeCall exampleCycleLeaf "/ws" 1) = true ∧
    (normalizeCall exampleCycleLeaf "/ws" 1).cycle = true ∧
    (normalizeCall exampleCycleLeaf "/ws" 1).calls.length = 0 :=
  ⟨by decide, ingestion_preserves_cycle_leaves.1 exampleCycleLeaf "/ws" 1 (by decide),
    by decide, by decide⟩

/-- C10: the per-file unhide operation removes from the persisted hidden-flow
list exactly the string entries starting with the file path followed by the
double-colon separator, preserving order, multiplicity, and every other entry,
non-strings included; flow ids not of that shape are never unhidden by it. -/
theorem unhideFlowsInFile_prefix_exactness :
    ∀ (fileRel : String) (cur : List PersistedVal),
      (unhideFlowsInFileUpdate fileRel cur).Sublist cur ∧
      (∀ s : String, PersistedVal.str s ∈ unhideFlowsInFileUpdate fileRel cur ↔
        (PersistedVal.str s ∈ cur ∧ jsStartsWith s (fileRel ++ "::") = false)) ∧
      (∀ s : String, jsStartsWith s (fileRel ++ "::") = false →
        (unhideFlowsInFileUpdate fileRel cur).count (.str s) = cur.count (.str s)) ∧
      (∀ s : String, jsStartsWith s (fileRel ++ "::") = true →
        (unhideFlowsInFileUpdate fileRel cur).count (.str s) = 0) ∧
      (∀ t : Nat, (unhideFlowsInFileUpdate fileRel cur).count (.nonString t) =
        cur.count (.nonString t)) := by
  intro fileRel cur
  have hdef : unhideFlowsInFileUpdate fileRel cur = cur.filter
      (fun v => match v with
        | .str s => !(jsStartsWith s (fileRel ++ "::"))
        | .nonString _ => true) := rfl
  rw [hdef]
  refine ⟨List.filter_sublist cur, ?_, ?_, ?_, ?_⟩
  · intro s
    rw [List.mem_filter]
    constructor
    · rintro ⟨h1, h2⟩
      exact ⟨h1, by simpa using h2⟩
    · rintro ⟨h1, h2⟩
      exact ⟨h1, by simpa using h2⟩
  · intro s hs
    exact count_filter_pos (by simp [hs]) cur
  · intro s hs
    exact count_filter_neg (by simp [hs]) cur
  · intro t
    exact count_filter_pos (by simp) cur

/-- C10 witness: on a concrete persisted list, the matching flow id is
removed, the other-file flow id and the non-string entry are kept. -/
theorem unhideFlowsInFile_prefix_exactness_witness :
    (unhideFlowsInFileUpdate "F.sol"
      [.str "F.sol::C.a", .str "G.sol::C.b", .nonString 0]).count (.str "F.sol::C.a") = 0 ∧
    (unhideFlowsInFileUpdate "F.sol"
      [.str "F.sol::C.a", .str "G.sol::C.b", .nonString 0]).count (.str "G.sol::C.b") = 1 ∧
    (unhideFlowsInFileUpdate "F.sol"
      [.str "F.sol::C.a", .str "G.sol::C.b", .nonString 0]).count (.nonString 0) = 1 := by
  have h := unhideFlowsInFile_prefix_exactness "F.sol"
    [.str "F.sol::C.a", .str "G.sol::C.b", .nonString 0]
  refine ⟨h.2.2.2.1 "F.sol::C.a" (by decide), ?_, ?_⟩
  · exact (h.2.2.1 "G.sol::C.b" (by decide)).trans (by decide)
  · exact (h.2.2.2.2 0).trans (by decide)


/-- The default head of a nonempty list is a member. -/
theorem headD_mem {α : Type} {l : List α} (d : α) (h : l ≠ []) : l.headD d ∈ l := by
  cases l with
  | nil => exact absurd rfl h
  | cons a t => exact List.mem_cons_self a t

/-- C1: for every analysis result and visibility state, each visible file in
the rebuilt tree has its entrypoints sorted by the composite key — inherited
flag with non-inherited first, then ascending source line, then label — and
at the concrete input b(20), a(10), z(1, inherited) the output order is
a(10), b(20), z(inherited). -/
theorem rebuild_sorts_entrypoints_by_composite_key :
    (∀ (a : RawAnalysis) (root : String) (hflows hfiles : List String) (foc : Option String),
      ∀ fn ∈ rebuildFiles (some a) (some root) hflows hfiles foc,
        fn.entrypoints.Sorted (cmpLe epCompare)) ∧
    (∀ (a : RawAnalysis) (root : String) (hflows hfiles : List String) (foc : Option String),
      root ≠ "" →
      ∀ fn ∈ rebuildFiles (some a) (some root) hflows hfiles foc,
        ∃ g ∈ visibleFiles a root hflows hfiles foc,
          fn.fileRel = g.fileRel ∧ List.Perm fn.entrypoints g.entrypoints) ∧
    ((rebuildFiles (some sortExampleAnalysis) (some "/ws") [] [] none).map
        (fun f => f.entrypoints.map (fun ep => (ep.label, epLineNumber ep, ep.inherited))) =
      [[("a", ExtNum.fin 10, false), ("b", ExtNum.fin 20, false),
        ("z", ExtNum.fin 1, true)]]) := by
  refine ⟨?_, ?_, by decide⟩
  · intro a root hflows hfiles foc fn hmem
    by_cases hr : root = ""
    · subst hr
      rw [show rebuildFiles (some a) (some "") hflows hfiles foc = [] from rfl] at hmem
      exact absurd hmem (List.not_mem_nil fn)
    · obtain ⟨g, _, rfl⟩ := (mem_rebuildFiles hr).mp hmem
      exact jsSort_sorted epCompare g.entrypoints
  · intro a root hflows hfiles foc hr fn hmem
    obtain ⟨g, hg, rfl⟩ := (mem_rebuildFiles hr).mp hmem
    exact ⟨g, hg, rfl, jsSort_perm epCompare g.entrypoints⟩

/-- C1 witness: the single output file of the concrete sorting example has a
sorted entrypoint list. -/
theorem rebuild_sorts_entrypoints_by_composite_key_witness :
    (((rebuildFiles (some sortExampleAnalysis) (some "/ws") [] [] none).headD
        { fileRel := "", fileAbs := "", entrypoints := [] }).entrypoints).Sorted
      (cmpLe epCompare) := by
  have hne : rebuildFiles (some sortExampleAnalysis) (some "/ws") [] [] none ≠ [] := by
    have h0 : (rebuildFiles (some sortExampleAnalysis) (some "/ws") [] [] none).isEmpty
        = false := by decide
    simpa [List.isEmpty_eq_false] using h0
  exact rebuild_sorts_entrypoints_by_composite_key.1 sortExampleAnalysis "/ws" [] [] none _
    (headD_mem _ hne)

/-- C2: the rebuilt tree contains no file whose path is hidden, no entrypoint
whose flow id is hidden, and no file left with an empty entrypoint list. -/
theorem rebuild_excludes_hidden_and_empty :
    ∀ (a : RawAnalysis) (root : String) (hflows hfiles : List String) (foc : Option String),
      ∀ fn ∈ rebuildFiles (some a) (some root) hflows hfiles foc,
        fn.fileRel ∉ hfiles ∧ fn.entrypoints ≠ [] ∧
          ∀ ep ∈ fn.entrypoints, ep.flowId ∉ hflows := by
  intro a root hflows hfiles foc fn hmem
  by_cases hr : root = ""
  · subst hr
    rw [show rebuildFiles (some a) (some "") hflows hfiles foc = [] from rfl] at hmem
    exact absurd hmem (List.not_mem_nil fn)
  · obtain ⟨g, hg, rfl⟩ := (mem_rebuildFiles hr).mp hmem
    obtain ⟨hA, hB, hC⟩ := visibleFiles_spec hg
    refine ⟨?_, ?_, ?_⟩
    · intro hmem2
      have h1 : g.fileRel ∈ hfiles := hmem2
      have h2 : hfiles.contains g.fileRel = true := by simpa [List.elem_iff] using h1
      rw [hA] at h2
      simp at h2
    · have h1 : (epSortNode g).entrypoints.isEmpty = false := by
        rw [epSortNode_isEmpty]
        simpa [List.isEmpty_eq_false] using hB
      simpa [List.isEmpty_eq_false] using h1
    · intro ep hep hmem2
      have hep2 : ep ∈ g.entrypoints := mem_jsSort.mp hep
      have h2 : hflows.contains ep.flowId = true := by simpa [List.elem_iff] using hmem2
      rw [(hC ep hep2).1] at h2
      simp at h2

/-- C2 witness: in the concrete example with one flow and one other file
hidden, the surviving file node respects all three exclusions. -/
theorem rebuild_excludes_hidden_and_empty_witness :
    (((rebuildFiles (some sortExampleAnalysis) (some "/ws") ["F.sol::C.b"] ["G.sol"]
        none).headD { fileRel := "", fileAbs := "", entrypoints := [] }).fileRel ∉
      (["G.sol"] : List String)) ∧
    ((rebuildFiles (some sortExampleAnalysis) (some "/ws") ["F.sol::C.b"] ["G.sol"]
        none).headD { fileRel := "", fileAbs := "", entrypoints := [] }).entrypoints ≠ [] := by
  have hne : rebuildFiles (some sortExampleAnalysis) (some "/ws") ["F.sol::C.b"] ["G.sol"]
      none ≠ [] := by
    have h0 : (rebuildFiles (some sortExampleAnalysis) (some "/ws") ["F.sol::C.b"] ["G.sol"]
        none).isEmpty = false := by decide
    simpa [List.isEmpty_eq_false] using h0
  have h := rebuild_excludes_hidden_and_empty sortExampleAnalysis "/ws" ["F.sol::C.b"]
    ["G.sol"] none _ (headD_mem { fileRel := "", fileAbs := "", entrypoints := [] } hne)
  exact ⟨h.1, h.2.1⟩

/-- C3: with empty hidden sets and focus X, the rebuilt tree holds exactly the
files containing an entrypoint with flow id X, each restricted to that flow;
when X is absent the tree is empty; and with non-empty hidden sets the focus
filter is layered on top of them — hidden files and hidden flows stay
excluded in the focused tree. -/
theorem focus_mode_exactness :
    (∀ (a : RawAnalysis) (root X : String), root ≠ "" → X ≠ "" →
      (∀ fn ∈ rebuildFiles (some a) (some root) [] [] (some X),
        ∀ ep ∈ fn.entrypoints, ep.flowId = X) ∧
      (∀ p : String,
        (∃ fn ∈ rebuildFiles (some a) (some root) [] [] (some X), fn.fileRel = p) ↔
        (∃ rf ∈ a.files.getD [], rf.path = p ∧
          ∃ rep ∈ rf.entrypoints.getD [], rep.flowId = X)) ∧
      ((∀ rf ∈ a.files.getD [], ∀ rep ∈ rf.entrypoints.getD [], rep.flowId ≠ X) →
        rebuildFiles (some a) (some root) [] [] (some X) = [])) ∧
    (∀ (a : RawAnalysis) (root X : String) (hflows hfiles : List String),
      root ≠ "" → X ≠ "" →
      ∀ fn ∈ rebuildFiles (some a) (some root) hflows hfiles (some X),
        fn.fileRel ∉ hfiles ∧
          ∀ ep ∈ fn.entrypoints, ep.flowId ∉ hflows ∧ ep.flowId = X) := by
  have layered : ∀ (a : RawAnalysis) (root X : String) (hflows hfiles : List String),
      root ≠ "" → X ≠ "" →
      ∀ fn ∈ rebuildFiles (some a) (some root) hflows hfiles (some X),
        fn.fileRel ∉ hfiles ∧
          ∀ ep ∈ fn.entrypoints, ep.flowId ∉ hflows ∧ ep.flowId = X := by
    intro a root X hflows hfiles hr hX fn hmem
    obtain ⟨g, hg, rfl⟩ := (mem_rebuildFiles hr).mp hmem
    obtain ⟨hA, _, hC⟩ := visibleFiles_spec hg
    refine ⟨?_, ?_⟩
    · intro hmem2
      have h2 : hfiles.contains g.fileRel = true := by
        simpa [List.elem_iff] using (hmem2 : g.fileRel ∈ hfiles)
      rw [hA] at h2
      simp at h2
    · intro ep hep
      have hep2 : ep ∈ g.entrypoints := mem_jsSort.mp hep
      obtain ⟨hc1, hc2⟩ := hC ep hep2
      refine ⟨?_, hc2 X rfl hX⟩
      intro hmem2
      have h2 : hflows.contains ep.flowId = true := by simpa [List.elem_iff] using hmem2
      rw [hc1] at h2
      simp at h2
  refine ⟨?_, layered⟩
  intro a root X hr hX
  refine ⟨?_, ?_, ?_⟩
  · intro fn hmem ep hep
    exact ((layered a root X [] [] hr hX fn hmem).2 ep hep).2
  · intro p
    constructor
    · rintro ⟨fn, hmem, rfl⟩
      obtain ⟨g, hg, rfl⟩ := (mem_rebuildFiles hr).mp hmem
      obtain ⟨rf, hrf, rfl, hne⟩ := (mem_visibleFiles_focus hX).mp hg
      exact ⟨rf, hrf, rfl, focus_entrypoints_ne_nil.mp hne⟩
    · rintro ⟨rf, hrf, rfl, rep, hrep, hfx⟩
      refine ⟨epSortNode (epUpdate (fun ep => ep.flowId == X) (fileNodeOfRaw root [] rf)),
        (mem_rebuildFiles hr).mpr
          ⟨epUpdate (fun ep => ep.flowId == X) (fileNodeOfRaw root [] rf),
            (mem_visibleFiles_focus hX).mpr
              ⟨rf, hrf, rfl, focus_entrypoints_ne_nil.mpr ⟨rep, hrep, hfx⟩⟩, rfl⟩, rfl⟩
  · intro habsent
    rw [List.eq_nil_iff_forall_not_mem]
    intro fn hmem
    obtain ⟨g, hg, rfl⟩ := (mem_rebuildFiles hr).mp hmem
    obtain ⟨rf, hrf, rfl, hne⟩ := (mem_visibleFiles_focus hX).mp hg
    obtain ⟨rep, hrep, hfx⟩ := focus_entrypoints_ne_nil.mp hne
    exact habsent rf hrf rep hrep hfx

/-- C3 witness: focusing an absent flow id yields no files; focusing the z
flow of the concrete example yields the file that holds it. -/
theorem focus_mode_exactness_witness :
    rebuildFiles (some sortExampleAnalysis) (some "/ws") [] [] (some "nope") = [] ∧
    (∃ fn ∈ rebuildFiles (some sortExampleAnalysis) (some "/ws") [] []
      (some "F.sol::C.z"), fn.fileRel = "F.sol") := by
  constructor
  · exact (focus_mode_exactness.1 sortExampleAnalysis "/ws" "nope" (by decide)
      (by decide)).2.2 (by decide)
  · exact ((focus_mode_exactness.1 sortExampleAnalysis "/ws" "F.sol::C.z" (by decide)
      (by decide)).2.1 "F.sol").mpr (by decide)

/-- C9: hiding flow X and rebuilding removes exactly the entrypoints with
flow id X from every file (dropping files left empty) and leaves everything
else unchanged; unhide-all then rebuild gives the tree of the empty
hidden-flow state, restoring the full pre-hide entrypoint set when nothing
was hidden before; and unhide-all is idempotent on both the persisted state
and the rebuilt tree. -/
theorem hide_unhide_rebuild_algebra :
    (∀ (analysis : Option RawAnalysis) (root : Option String) (H hfiles : List String)
        (foc : Option String) (X : String),
      rebuildFiles analysis root (hideFlowUpdate H X) hfiles foc =
        removeFlow X (rebuildFiles analysis root H hfiles foc)) ∧
    (∀ (analysis : Option RawAnalysis) (root : Option String) (H hfiles : List String)
        (foc : Option String) (X : String),
      rebuildFiles analysis root (unhideAllFlowsUpdate (hideFlowUpdate H X)) hfiles foc =
        rebuildFiles analysis root [] hfiles foc) ∧
    (∀ H : List String, unhideAllFlowsUpdate (unhideAllFlowsUpdate H) =
      unhideAllFlowsUpdate H) ∧
    (∀ (analysis : Option RawAnalysis) (root : Option String) (H hfiles : List String)
        (foc : Option String),
      rebuildFiles analysis root (unhideAllFlowsUpdate (unhideAllFlowsUpdate H)) hfiles foc =
        rebuildFiles analysis root (unhideAllFlowsUpdate H) hfiles foc) :=
  ⟨fun analysis root H hfiles foc X => rebuildFiles_hideFlow analysis root H hfiles foc X,
    fun _ _ _ _ _ _ => rfl, fun _ => rfl, fun _ _ _ _ _ => rfl⟩

end Flowther
